import Mathlib

/-!
Shallow embedding of the guest-side console log collector
(`src/guest-js/consoleLogger.ts`) of tauri-plugin-debug-tools.

The collector keeps a ring buffer of at most 1000 entries and a pending
batch of at most 200 entries, formats arbitrary argument lists into flat
message strings, extracts call-site origins from captured stacks, and
delivers pending batches to the host bridge once the Tauri readiness
latch has fired.  JavaScript runtime values are modelled by `JSValue`,
the collector's mutable fields by `CState`, and the event-loop callbacks
(append, timer fire, tauri-ready) by the `step` function over `Event`.
-/

namespace DebugTools

/-- The five console levels of `ConsoleLogEntry["level"]`. -/
inductive Level
  | log
  | warn
  | error
  | info
  | debug
deriving DecidableEq, Repr

/-- A JavaScript runtime value as the formatter distinguishes them:
a string, an `Error` instance (with `name` and `message`), a value on
which `JSON.stringify` succeeds producing `json`, or a value on which
`JSON.stringify` throws (cyclic) and `String(arg)` yields `coerce`. -/
inductive JSValue
  | vstr (s : String)
  | verr (name msg : String)
  | vjson (json : String)
  | vcyclic (coerce : String)
deriving DecidableEq, Repr

/-- Result of `JSON.stringify` on a non-string, non-Error value:
throws exactly on cyclic values. -/
def jsonStringify : JSValue → Except Unit String
  | .vstr s => .ok s
  | .verr name msg => .ok (name ++ ": " ++ msg)
  | .vjson j => .ok j
  | .vcyclic _ => .error ()

/-- The generic `String(arg)` coercion used in the catch branch. -/
def jsToString : JSValue → String
  | .vstr s => s
  | .verr name msg => name ++ ": " ++ msg
  | .vjson j => j
  | .vcyclic c => c

/-- One arm of `formatArgs`, with the exception behaviour explicit:
the `try { JSON.stringify } catch { String(arg) }` block never lets an
exception escape, so the result is always `Except.ok`. -/
def formatArgE (v : JSValue) : Except Unit String :=
  match v with
  | .vstr s => .ok s
  | .verr name msg => .ok (name ++ ": " ++ msg)
  | v =>
    match jsonStringify v with
    | .ok j => .ok j
    | .error _ => .ok (jsToString v)

/-- Per-argument conversion of `ConsoleLogCollector.formatArgs`:
string passthrough, then `Error` as name: message, then
`JSON.stringify`, then `String(arg)` on stringify failure. -/
def formatArg (v : JSValue) : String :=
  match formatArgE v with
  | .ok s => s
  | .error _ => ""

/-- Source `ConsoleLogCollector.formatArgs`: map the conversion and join with
a single space. -/
def formatArgs (args : List JSValue) : String :=
  String.intercalate " " (args.map formatArg)

/-- Modelled from the spec (§4.2): per-value conversion in priority
order (a) string passthrough, (b) error-like as "name: message",
(c) structural serialization, (d) generic coercion on failure.  Used
only to compare against the source-derived `formatArg`. -/
def specConvert : JSValue → String
  | .vstr s => s
  | .verr name msg => name ++ ": " ++ msg
  | .vjson j => j
  | .vcyclic c => c

/-- Modelled from the spec (§4.2): space-joined concatenation of the
per-value conversions. -/
def specFormatArgs (args : List JSValue) : String :=
  String.intercalate " " (args.map specConvert)

/-- Whether `pat` occurs as a contiguous run at the head of `s`. -/
def matchesAt : List Char → List Char → Bool
  | [], _ => true
  | _ :: _, [] => false
  | c :: cs, d :: ds => c = d && matchesAt cs ds

/-- Whether `pat` occurs as a contiguous run somewhere in `s`. -/
def hasSub (pat : List Char) : List Char → Bool
  | [] => matchesAt pat []
  | s@(_ :: rest) => matchesAt pat s || hasSub pat rest

/-- JavaScript `line.includes(sub)`. -/
def containsSub (s sub : String) : Bool :=
  hasSub sub.toList s.toList

/-- JavaScript `s.startsWith(pat)`. -/
def startsWithStr (s pat : String) : Bool :=
  matchesAt pat.toList s.toList

/-- The whitespace characters removed by JavaScript `trim` (the ones
occurring in stack traces). -/
def isJsWhitespace (c : Char) : Bool :=
  (c == ' ') || (c == '\t') || (c == '\n') || (c == '\r')

/-- Character-level trim from both ends. -/
def trimChars (l : List Char) : List Char :=
  ((l.dropWhile isJsWhitespace).reverse.dropWhile isJsWhitespace).reverse

/-- JavaScript `s.trim()`. -/
def jsTrim (s : String) : String :=
  ⟨trimChars s.toList⟩

/-- Split a character list at every newline, keeping empty segments. -/
def splitLines : List Char → List (List Char)
  | [] => [[]]
  | d :: ds =>
    match splitLines ds with
    | [] => [[]]
    | r :: rs => if d = '\n' then [] :: r :: rs else (d :: r) :: rs

/-- JavaScript `s.split("\n")`. -/
def splitOnNewline (s : String) : List String :=
  (splitLines s.toList).map (fun l => ⟨l⟩)

/-- The skip conditions of `ConsoleLogCollector.formatOrigin`'s loop:
internal / vendor path fragments plus the "Error" header line. -/
def isInternalFrame (line : String) : Bool :=
  containsSub line "debugTools" ||
  containsSub line "consoleLogger" ||
  containsSub line "ConsoleLogCollector" ||
  containsSub line "node_modules" ||
  containsSub line "react-dom_client" ||
  containsSub line "guest-js" ||
  containsSub line "dist-js" ||
  startsWithStr line "Error"

/-- The line preprocessing of `formatOrigin`: split on newlines, trim
each line, discard empties (`filter(Boolean)`). -/
def stackLines (stack : String) : List String :=
  ((splitOnNewline stack).map jsTrim).filter (fun l => decide (l ≠ ""))

/-- Source `ConsoleLogCollector.formatOrigin`: the first trimmed non-empty
line that is not an internal frame, if any. -/
def formatOrigin : Option String → Option String
  | none => none
  | some stack => (stackLines stack).find? (fun l => !(isInternalFrame l))

/-- Source `ConsoleLogCollector.withOriginArgs`: append a synthetic origin
argument when an origin was found, otherwise return the args as-is. -/
def withOriginArgs (args : List JSValue) (origin : Option String) : List JSValue :=
  match origin with
  | some o => args ++ [JSValue.vstr ("[origin] " ++ o)]
  | none => args

/-- Source `ConsoleLogCollector.cleanStack`: keep the header plus all frame
lines not referencing the collector's own names; `none` when the stack
has at most one line or no frame survives. -/
def cleanStack (stack : String) : Option String :=
  let lines := splitOnNewline stack
  if lines.length ≤ 1 then none
  else
    let header := lines.headD ""
    let filtered := (lines.drop 1).filter
      (fun l => !(containsSub l "consoleLogger") && !(containsSub l "ConsoleLogCollector"))
    if filtered.length = 0 then none
    else some (String.intercalate "\n" (header :: filtered))

/-- Source `ConsoleLogCollector.normalizeStack`: the cleaned stack, falling
back to the original raw stack when cleaning yields nothing. -/
def normalizeStack : Option String → Option String
  | none => none
  | some stack =>
    match cleanStack stack with
    | none => some stack
    | some c => some c

/-- Source `ConsoleLogEntry`: the structured entry stored in both buffers. -/
structure LogEntry where
  timestamp : Nat
  level : Level
  message : String
  args : List JSValue
  stack_trace : Option String
deriving DecidableEq, Repr

/-- Source `maxLogs`: capacity of the ring buffer. -/
def maxLogs : Nat := 1000

/-- Source `maxPendingLogs`: capacity of the pending-batch accumulator. -/
def maxPendingLogs : Nat := 200

/-- One recorded call of `invoke("plugin:debug-tools|append_debug_logs")`,
with the value of `tauriReady` at the instant the call was issued. -/
structure Delivery where
  readyAtCall : Bool
  batch : List LogEntry
deriving DecidableEq, Repr

/-- The mutable fields of `ConsoleLogCollector`, extended with three
observation traces: the list of delivery calls issued, the number of
`reset_debug_logs` calls issued, and the messages sent to the original
(unwrapped) `console.error`. -/
structure CState where
  logs : List LogEntry
  pendingLogs : List LogEntry
  flushTimer : Bool
  tauriReady : Bool
  logsReset : Bool
  deliveries : List Delivery
  resetCalls : Nat
  consoleErrors : List String
deriving DecidableEq, Repr

/-- Field values at construction time. -/
def initState : CState :=
  { logs := []
    pendingLogs := []
    flushTimer := false
    tauriReady := false
    logsReset := false
    deliveries := []
    resetCalls := 0
    consoleErrors := [] }

/-- Source `ConsoleLogCollector.scheduleFlush`: arm the one-shot timer unless
one is already outstanding. -/
def scheduleFlush (st : CState) : CState :=
  if st.flushTimer then st else { st with flushTimer := true }

/-- Source `ConsoleLogCollector.enqueuePending`: push onto the pending queue,
shift the oldest entry when over capacity, then request a flush. -/
def enqueuePending (st : CState) (entry : LogEntry) : CState :=
  let pending := st.pendingLogs ++ [entry]
  let pending := if maxPendingLogs < pending.length then pending.drop 1 else pending
  scheduleFlush { st with pendingLogs := pending }

/-- Construction of the entry literal in `addLog`. -/
def mkEntry (ts : Nat) (level : Level) (args : List JSValue)
    (stack : Option String) : LogEntry :=
  { timestamp := ts
    level := level
    message := formatArgs args
    args := args
    stack_trace := stack }

/-- Source `ConsoleLogCollector.addLog`: push the entry to the ring buffer,
enqueue it for delivery, then drop the oldest ring entry when over the
limit. -/
def addLog (st : CState) (level : Level) (args : List JSValue)
    (stack : Option String) (ts : Nat) : CState :=
  let entry := mkEntry ts level args stack
  let st := { st with logs := st.logs ++ [entry] }
  let st := enqueuePending st entry
  if maxLogs < st.logs.length then { st with logs := st.logs.drop 1 } else st

/-- Source `ConsoleLogCollector.flushPending`: while not ready just re-arm the
timer; with an empty queue do nothing; otherwise splice the whole queue
into a batch, issue the delivery call, and on rejection log to the
original console.  `deliverOk` is the environment's delivery outcome. -/
def flushPending (st : CState) (deliverOk : Bool) : CState :=
  if !st.tauriReady then scheduleFlush st
  else if st.pendingLogs.length = 0 then st
  else
    let batch := st.pendingLogs
    let st := { st with
      pendingLogs := []
      deliveries := st.deliveries ++ [{ readyAtCall := st.tauriReady, batch := batch }] }
    if deliverOk then st
    else { st with consoleErrors := st.consoleErrors ++ ["[debug] append logs failed"] }

/-- The timer callback of `scheduleFlush`: clear the handle, then run
`flushPending`. -/
def timerFire (st : CState) (deliverOk : Bool) : CState :=
  flushPending { st with flushTimer := false } deliverOk

/-- Source `ConsoleLogCollector.resetLogsFile`: latch `logsReset` before
issuing the one-time `reset_debug_logs` call; on rejection log to the
original console.  `resetOk` is the environment's outcome. -/
def resetLogsFile (st : CState) (resetOk : Bool) : CState :=
  if st.logsReset then st
  else
    let st := { st with logsReset := true, resetCalls := st.resetCalls + 1 }
    if resetOk then st
    else { st with consoleErrors := st.consoleErrors ++ ["[debug] reset logs failed"] }

/-- Source `ConsoleLogCollector.handleTauriReady`: set the readiness latch,
run the one-time remote reset, then flush anything pending. -/
def handleTauriReady (st : CState) (resetOk deliverOk : Bool) : CState :=
  flushPending (resetLogsFile { st with tauriReady := true } resetOk) deliverOk

/-- Source `ConsoleLogCollector.record`: compute the origin from the stack
captured at the call site (`buildOrigin`), enrich the args with the
origin tag, and store with the normalized stack. -/
def record (st : CState) (level : Level) (args : List JSValue)
    (capturedStack : Option String) (ts : Nat) : CState :=
  let origin := formatOrigin capturedStack
  let enrichedArgs := withOriginArgs args origin
  addLog st level enrichedArgs (normalizeStack capturedStack) ts

/-- Source `ConsoleLogCollector.clearLogs`. -/
def clearLogs (st : CState) : CState :=
  { st with logs := [] }

/-- Source `ConsoleLogCollector.getLogs`. -/
def getLogs (st : CState) : List LogEntry :=
  st.logs

/-- Source `ConsoleLogCollector.getLogsByLevel`. -/
def getLogsByLevel (st : CState) (level : Level) : List LogEntry :=
  st.logs.filter (fun e => decide (e.level = level))

/-- Source `ConsoleLogCollector.getErrors`. -/
def getErrors (st : CState) : List LogEntry :=
  getLogsByLevel st Level.error

/-- JavaScript `Array.prototype.slice(start)` with a possibly negative
start index: negative starts count from the end, clamped at 0. -/
def jsSliceFrom (l : List LogEntry) (start : Int) : List LogEntry :=
  if start < 0 then l.drop (Int.toNat ((l.length : Int) + start))
  else l.drop (Int.toNat start)

/-- Source `ConsoleLogCollector.getRecentLogs`: `this.logs.slice(-count)`. -/
def getRecentLogs (st : CState) (count : Int) : List LogEntry :=
  jsSliceFrom st.logs (-count)

/-- The per-level counter record built by `getStats`. -/
structure LevelCounts where
  log : Nat
  warn : Nat
  error : Nat
  info : Nat
  debug : Nat
deriving DecidableEq, Repr

/-- The `byLevel[log.level]++` increment of `getStats`'s loop. -/
def bumpLevel (c : LevelCounts) : Level → LevelCounts
  | .log => { c with log := c.log + 1 }
  | .warn => { c with warn := c.warn + 1 }
  | .error => { c with error := c.error + 1 }
  | .info => { c with info := c.info + 1 }
  | .debug => { c with debug := c.debug + 1 }

/-- Source `ConsoleLogCollector.getStats`: total count and the per-level
counts, zero-initialised then bumped per entry. -/
def getStats (st : CState) : Nat × LevelCounts :=
  (st.logs.length,
   st.logs.foldl (fun c e => bumpLevel c e.level) ⟨0, 0, 0, 0, 0⟩)

/-- The append-shaped request of a `record` call: level, raw args, the
stack captured by `new Error()` at the call site, and the timestamp. -/
structure RecordReq where
  level : Level
  args : List JSValue
  capturedStack : Option String
  ts : Nat
deriving DecidableEq, Repr

/-- The entry a `record` call stores: origin-enriched args, normalized
stack. -/
def entryOfReq (r : RecordReq) : LogEntry :=
  mkEntry r.ts r.level (withOriginArgs r.args (formatOrigin r.capturedStack))
    (normalizeStack r.capturedStack)

/-- An event-loop occurrence that mutates the collector: a `record`
call, a hook-sourced `addLog`, a timer fire, a tauri-ready trigger, or
`clearLogs`.  The Booleans are the asynchronous outcomes supplied by
the environment. -/
inductive Event
  | recordEv (r : RecordReq)
  | hookErr (args : List JSValue) (stack : Option String) (ts : Nat)
  | timerEv (deliverOk : Bool)
  | readyEv (resetOk deliverOk : Bool)
  | clearEv

/-- One event-loop step of the collector. -/
def step (st : CState) (e : Event) : CState :=
  match e with
  | .recordEv r => record st r.level r.args r.capturedStack r.ts
  | .hookErr args stack ts => addLog st Level.error args stack ts
  | .timerEv ok => if st.flushTimer then timerFire st ok else st
  | .readyEv rok dok => handleTauriReady st rok dok
  | .clearEv => clearLogs st

/-- The state after replaying a list of events from construction. -/
def replay (es : List Event) : CState :=
  es.foldl step initState

/-- Push-with-capacity: append an element, then drop the oldest when
over `cap`.  Both buffers of the collector obey this shape. -/
def pushCap (cap : Nat) (l : List LogEntry) (e : LogEntry) : List LogEntry :=
  let l := l ++ [e]
  if cap < l.length then l.drop 1 else l

/-- A heap of JavaScript argument arrays, addressed by index; used to
make array identity (and hence mutation) observable. -/
structure ArgStore where
  arrs : List (List JSValue)
deriving DecidableEq, Repr

/-- Contents of the array behind reference `r`. -/
def deref (σ : ArgStore) (r : Nat) : List JSValue :=
  σ.arrs.getD r []

/-- Allocation of a fresh array (what an array spread produces). -/
def allocArr (σ : ArgStore) (v : List JSValue) : ArgStore × Nat :=
  ({ arrs := σ.arrs ++ [v] }, σ.arrs.length)

/-- Reference-level `withOriginArgs`: with an origin, allocate a fresh
array holding the spread of the input plus the origin tag; without one,
return the caller's reference unchanged. -/
def withOriginArgsRef (σ : ArgStore) (r : Nat) (origin : Option String) :
    ArgStore × Nat :=
  match origin with
  | some o => allocArr σ (deref σ r ++ [JSValue.vstr ("[origin] " ++ o)])
  | none => (σ, r)

/-- Reference-level `record`: enrich via `withOriginArgsRef`, then pass
the dereferenced enriched array to `addLog`. -/
def recordRef (σ : ArgStore) (st : CState) (level : Level) (r : Nat)
    (capturedStack : Option String) (ts : Nat) : ArgStore × CState :=
  let origin := formatOrigin capturedStack
  let res := withOriginArgsRef σ r origin
  (res.1, addLog st level (deref res.1 res.2) (normalizeStack capturedStack) ts)

/-- Reference-level facade method (log/info/warn/error/debug): build an
enriched array for the original console passthrough, then call `record`
with the caller's original reference `r`.  The two stack captures (one
in the facade body, one inside `record`) are separate parameters. -/
def facadeRef (σ : ArgStore) (st : CState) (level : Level) (r : Nat)
    (stackAtFacade stackAtRecord : Option String) (ts : Nat) : ArgStore × CState :=
  let origin := formatOrigin stackAtFacade
  let forConsole := withOriginArgsRef σ r origin
  recordRef forConsole.1 st level r stackAtRecord ts

/-- Number of entries of level `lv` in a buffer. -/
def countLevel (l : List LogEntry) (lv : Level) : Nat :=
  (l.filter (fun e => decide (e.level = lv))).length

/-- A concrete sample entry used in witnesses and counterexamples. -/
def sampleEntry : LogEntry := mkEntry 0 Level.info [JSValue.vstr "x"] none

/-- A collector state that is ready and holds one pending entry. -/
def readyPendingState : CState :=
  { initState with tauriReady := true, pendingLogs := [sampleEntry] }

/-- A collector state (not ready) holding one pending entry. -/
def pendingOnlyState : CState :=
  { initState with pendingLogs := [sampleEntry] }

/-- A collector state holding exactly one buffered entry. -/
def oneLogState : CState :=
  { initState with logs := [sampleEntry] }

/-- A captured stack with one external frame after the header. -/
def sampleStack : String := "Error\n    at doWork (app.ts:1:1)"

/-- A captured stack whose only non-header frame is internal. -/
def internalStack : String := "Error\n    at consoleLogger (consoleLogger.ts:1:1)"

/-- A concrete record request. -/
def sampleReq : RecordReq :=
  { level := Level.log, args := [], capturedStack := none, ts := 0 }

/-- A store holding one caller-supplied argument array. -/
def sampleStore : ArgStore :=
  { arrs := [[JSValue.vstr "hi"]] }

lemma scheduleFlush_eq (st : CState) :
    scheduleFlush st = { st with flushTimer := true } := by
  unfold scheduleFlush
  split
  · next h => cases st; simp_all
  · rfl

lemma enqueuePending_eq (st : CState) (e : LogEntry) :
    enqueuePending st e =
      { st with pendingLogs := pushCap maxPendingLogs st.pendingLogs e
                flushTimer := true } := by
  unfold enqueuePending pushCap
  rw [scheduleFlush_eq]

lemma addLog_eq (st : CState) (level : Level) (args : List JSValue)
    (stack : Option String) (ts : Nat) :
    addLog st level args stack ts =
      { st with logs := pushCap maxLogs st.logs (mkEntry ts level args stack)
                pendingLogs := pushCap maxPendingLogs st.pendingLogs (mkEntry ts level args stack)
                flushTimer := true } := by
  unfold addLog
  dsimp only
  rw [enqueuePending_eq]
  dsimp only
  unfold pushCap
  dsimp only
  by_cases hc : maxLogs < (st.logs ++ [mkEntry ts level args stack]).length
  · rw [if_pos hc, if_pos hc]
  · rw [if_neg hc, if_neg hc]

lemma flushPending_not_ready (st : CState) (ok : Bool) (h : st.tauriReady = false) :
    flushPending st ok = { st with flushTimer := true } := by
  unfold flushPending
  simp [h, scheduleFlush_eq]

lemma flushPending_empty (st : CState) (ok : Bool) (h : st.tauriReady = true)
    (h2 : st.pendingLogs = []) : flushPending st ok = st := by
  unfold flushPending
  rw [h, h2]
  simp

lemma flushPending_deliver (st : CState) (ok : Bool) (h : st.tauriReady = true)
    (h2 : st.pendingLogs ≠ []) :
    flushPending st ok =
      { st with pendingLogs := []
                deliveries := st.deliveries ++ [{ readyAtCall := true, batch := st.pendingLogs }]
                consoleErrors :=
                  if ok then st.consoleErrors
                  else st.consoleErrors ++ ["[debug] append logs failed"] } := by
  unfold flushPending
  have hlen : ¬ st.pendingLogs.length = 0 := by
    simpa [List.length_eq_zero] using h2
  rw [h]
  simp only [Bool.not_true, Bool.false_eq_true, if_false, if_neg hlen]
  cases ok <;> simp [h]

lemma resetLogsFile_done (st : CState) (ok : Bool) (h : st.logsReset = true) :
    resetLogsFile st ok = st := by
  unfold resetLogsFile
  rw [h]
  simp

lemma resetLogsFile_fresh (st : CState) (ok : Bool) (h : st.logsReset = false) :
    resetLogsFile st ok =
      { st with logsReset := true
                resetCalls := st.resetCalls + 1
                consoleErrors :=
                  if ok then st.consoleErrors
                  else st.consoleErrors ++ ["[debug] reset logs failed"] } := by
  unfold resetLogsFile
  rw [h]
  cases ok <;> simp

lemma length_pushCap_le (cap : Nat) (l : List LogEntry) (e : LogEntry)
    (h : l.length ≤ cap) : (pushCap cap l e).length ≤ cap := by
  unfold pushCap
  dsimp only
  split
  · next hc =>
    simp only [List.length_drop, List.length_append, List.length_singleton]
    omega
  · next hc =>
    simp only [List.length_append, List.length_singleton] at hc ⊢
    omega

lemma pushCap_getLast? (cap : Nat) (l : List LogEntry) (e : LogEntry)
    (h : 0 < cap) : (pushCap cap l e).getLast? = some e := by
  unfold pushCap
  dsimp only
  split
  · next hc =>
    simp only [List.length_append, List.length_singleton] at hc
    have hl : 1 ≤ l.length := by omega
    rw [List.drop_append_of_le_length hl]
    exact List.getLast?_concat _
  · exact List.getLast?_concat _

lemma pushCap_ne_nil (cap : Nat) (l : List LogEntry) (e : LogEntry)
    (h : 0 < cap) : pushCap cap l e ≠ [] := by
  intro hnil
  have hlast := pushCap_getLast? cap l e h
  rw [hnil] at hlast
  simp at hlast

lemma foldl_pushCap (cap : Nat) (hcap0 : 0 < cap) (full : List LogEntry) :
    full.foldl (pushCap cap) [] = full.drop (full.length - cap) := by
  induction full using List.reverseRecOn with
  | nil => simp
  | append_singleton es e ih =>
    rw [List.foldl_append, ih]
    simp only [List.foldl_cons, List.foldl_nil]
    by_cases hlt : es.length < cap
    · have h1 : es.length - cap = 0 := by omega
      have h2 : (es ++ [e]).length - cap = 0 := by
        simp only [List.length_append, List.length_singleton]
        omega
      rw [h1, List.drop_zero, h2, List.drop_zero]
      have hcond : ¬ cap < (es ++ [e]).length := by
        simp only [List.length_append, List.length_singleton]
        omega
      unfold pushCap
      dsimp only
      rw [if_neg hcond]
    · have h1 : cap ≤ es.length := by omega
      have hlen1 : (es.drop (es.length - cap)).length = cap := by
        rw [List.length_drop]
        omega
      have hcond : cap < (es.drop (es.length - cap) ++ [e]).length := by
        simp only [List.length_append, List.length_singleton, hlen1]
        omega
      have hone : 1 ≤ (es.drop (es.length - cap)).length := by
        rw [hlen1]
        omega
      unfold pushCap
      dsimp only
      rw [if_pos hcond]
      rw [List.drop_append_of_le_length hone, List.drop_drop]
      have h2 : (es ++ [e]).length - cap = es.length + 1 - cap := by
        simp only [List.length_append, List.length_singleton]
      rw [h2]
      have h3 : es.length + 1 - cap ≤ es.length := by omega
      rw [List.drop_append_of_le_length h3]
      have h4 : es.length - cap + 1 = es.length + 1 - cap := by omega
      rw [h4]

@[simp] lemma flushPending_logs (st : CState) (ok : Bool) :
    (flushPending st ok).logs = st.logs := by
  unfold flushPending
  split
  · rw [scheduleFlush_eq]
  · split
    · rfl
    · dsimp only
      split <;> rfl

@[simp] lemma flushPending_tauriReady (st : CState) (ok : Bool) :
    (flushPending st ok).tauriReady = st.tauriReady := by
  unfold flushPending
  split
  · rw [scheduleFlush_eq]
  · split
    · rfl
    · dsimp only
      split <;> rfl

@[simp] lemma flushPending_logsReset (st : CState) (ok : Bool) :
    (flushPending st ok).logsReset = st.logsReset := by
  unfold flushPending
  split
  · rw [scheduleFlush_eq]
  · split
    · rfl
    · dsimp only
      split <;> rfl

@[simp] lemma flushPending_resetCalls (st : CState) (ok : Bool) :
    (flushPending st ok).resetCalls = st.resetCalls := by
  unfold flushPending
  split
  · rw [scheduleFlush_eq]
  · split
    · rfl
    · dsimp only
      split <;> rfl

lemma flushPending_pendingLogs (st : CState) (ok : Bool) :
    (flushPending st ok).pendingLogs = st.pendingLogs ∨
    (flushPending st ok).pendingLogs = [] := by
  unfold flushPending
  split
  · left
    rw [scheduleFlush_eq]
  · split
    · left
      rfl
    · right
      dsimp only
      split <;> rfl

lemma flushPending_deliveries (st : CState) (ok : Bool) :
    (flushPending st ok).deliveries = st.deliveries ∨
    ((flushPending st ok).deliveries
        = st.deliveries ++ [{ readyAtCall := true, batch := st.pendingLogs }]
      ∧ st.tauriReady = true) := by
  unfold flushPending
  split
  · left
    rw [scheduleFlush_eq]
  · next h =>
    have hr : st.tauriReady = true := by
      simpa using h
    split
    · left
      rfl
    · right
      dsimp only
      rw [hr]
      split <;> exact ⟨rfl, rfl⟩

@[simp] lemma resetLogsFile_logs (st : CState) (ok : Bool) :
    (resetLogsFile st ok).logs = st.logs := by
  unfold resetLogsFile
  split
  · rfl
  · dsimp only
    split <;> rfl

@[simp] lemma resetLogsFile_pendingLogs (st : CState) (ok : Bool) :
    (resetLogsFile st ok).pendingLogs = st.pendingLogs := by
  unfold resetLogsFile
  split
  · rfl
  · dsimp only
    split <;> rfl

@[simp] lemma resetLogsFile_tauriReady (st : CState) (ok : Bool) :
    (resetLogsFile st ok).tauriReady = st.tauriReady := by
  unfold resetLogsFile
  split
  · rfl
  · dsimp only
    split <;> rfl

@[simp] lemma resetLogsFile_deliveries (st : CState) (ok : Bool) :
    (resetLogsFile st ok).deliveries = st.deliveries := by
  unfold resetLogsFile
  split
  · rfl
  · dsimp only
    split <;> rfl

@[simp] lemma resetLogsFile_flushTimer (st : CState) (ok : Bool) :
    (resetLogsFile st ok).flushTimer = st.flushTimer := by
  unfold resetLogsFile
  split
  · rfl
  · dsimp only
    split <;> rfl

lemma resetLogsFile_latch (st : CState) (ok : Bool) :
    ((resetLogsFile st ok).resetCalls = st.resetCalls
        ∧ (resetLogsFile st ok).logsReset = st.logsReset) ∨
    (st.logsReset = false ∧ (resetLogsFile st ok).resetCalls = st.resetCalls + 1
        ∧ (resetLogsFile st ok).logsReset = true) := by
  unfold resetLogsFile
  split
  · left
    exact ⟨rfl, rfl⟩
  · next h =>
    right
    have hr : st.logsReset = false := by
      simpa using h
    refine ⟨hr, ?_⟩
    dsimp only
    split <;> exact ⟨rfl, rfl⟩

lemma step_recordEv_logs (st : CState) (r : RecordReq) :
    (step st (Event.recordEv r)).logs = pushCap maxLogs st.logs (entryOfReq r) := by
  simp [step, record, addLog_eq, entryOfReq]

lemma step_logs (st : CState) (e : Event) :
    (step st e).logs = st.logs ∨ (step st e).logs = [] ∨
    ∃ en, (step st e).logs = pushCap maxLogs st.logs en := by
  cases e with
  | recordEv r =>
    exact Or.inr (Or.inr ⟨entryOfReq r, step_recordEv_logs st r⟩)
  | hookErr args stack ts =>
    refine Or.inr (Or.inr ⟨mkEntry ts Level.error args stack, ?_⟩)
    simp [step, addLog_eq]
  | timerEv ok =>
    left
    by_cases hft : st.flushTimer = true <;> simp [step, hft, timerFire]
  | readyEv rok dok =>
    left
    simp [step, handleTauriReady]
  | clearEv =>
    exact Or.inr (Or.inl (by simp [step, clearLogs]))

lemma step_pendingLogs (st : CState) (e : Event) :
    (step st e).pendingLogs = st.pendingLogs ∨ (step st e).pendingLogs = [] ∨
    ∃ en, (step st e).pendingLogs = pushCap maxPendingLogs st.pendingLogs en := by
  cases e with
  | recordEv r =>
    refine Or.inr (Or.inr ⟨entryOfReq r, ?_⟩)
    simp [step, record, addLog_eq, entryOfReq]
  | hookErr args stack ts =>
    refine Or.inr (Or.inr ⟨mkEntry ts Level.error args stack, ?_⟩)
    simp [step, addLog_eq]
  | timerEv ok =>
    by_cases hft : st.flushTimer = true
    · have h := flushPending_pendingLogs { st with flushTimer := false } ok
      simp only [step, hft, if_true, timerFire]
      rcases h with h | h
      · exact Or.inl h
      · exact Or.inr (Or.inl h)
    · left
      simp [step, hft]
  | readyEv rok dok =>
    have h := flushPending_pendingLogs (resetLogsFile { st with tauriReady := true } rok) dok
    rw [resetLogsFile_pendingLogs] at h
    simp only [step, handleTauriReady]
    rcases h with h | h
    · exact Or.inl h
    · exact Or.inr (Or.inl h)
  | clearEv =>
    left
    simp [step, clearLogs]

lemma step_deliveries (st : CState) (e : Event) :
    (step st e).deliveries = st.deliveries ∨
    ∃ b, (step st e).deliveries = st.deliveries ++ [{ readyAtCall := true, batch := b }] := by
  cases e with
  | recordEv r =>
    left
    simp [step, record, addLog_eq]
  | hookErr args stack ts =>
    left
    simp [step, addLog_eq]
  | timerEv ok =>
    by_cases hft : st.flushTimer = true
    · have h := flushPending_deliveries { st with flushTimer := false } ok
      simp only [step, hft, if_true, timerFire]
      rcases h with h | ⟨h, _⟩
      · exact Or.inl h
      · exact Or.inr ⟨_, h⟩
    · left
      simp [step, hft]
  | readyEv rok dok =>
    have h := flushPending_deliveries (resetLogsFile { st with tauriReady := true } rok) dok
    rw [resetLogsFile_deliveries, resetLogsFile_pendingLogs] at h
    simp only [step, handleTauriReady]
    rcases h with h | ⟨h, _⟩
    · exact Or.inl h
    · exact Or.inr ⟨_, h⟩
  | clearEv =>
    left
    simp [step, clearLogs]

lemma step_resetLatch (st : CState) (e : Event) :
    ((step st e).resetCalls = st.resetCalls ∧ (step st e).logsReset = st.logsReset) ∨
    (st.logsReset = false ∧ (step st e).resetCalls = st.resetCalls + 1
      ∧ (step st e).logsReset = true) := by
  cases e with
  | recordEv r =>
    left
    constructor <;> simp [step, record, addLog_eq]
  | hookErr args stack ts =>
    left
    constructor <;> simp [step, addLog_eq]
  | timerEv ok =>
    left
    by_cases hft : st.flushTimer = true <;> constructor <;> simp [step, hft, timerFire]
  | readyEv rok dok =>
    have h := resetLogsFile_latch { st with tauriReady := true } rok
    simp only [step, handleTauriReady, flushPending_resetCalls, flushPending_logsReset]
    rcases h with ⟨h1, h2⟩ | ⟨h0, h1, h2⟩
    · left
      exact ⟨h1, h2⟩
    · right
      exact ⟨h0, h1, h2⟩
  | clearEv =>
    left
    constructor <;> simp [step, clearLogs]

lemma foldl_step_bounds (es : List Event) :
    ∀ st : CState, st.logs.length ≤ maxLogs → st.pendingLogs.length ≤ maxPendingLogs →
      (es.foldl step st).logs.length ≤ maxLogs
        ∧ (es.foldl step st).pendingLogs.length ≤ maxPendingLogs := by
  induction es with
  | nil =>
    intro st h1 h2
    exact ⟨h1, h2⟩
  | cons e es ih =>
    intro st h1 h2
    rw [List.foldl_cons]
    refine ih (step st e) ?_ ?_
    · rcases step_logs st e with h | h | ⟨en, h⟩
      · rw [h]; exact h1
      · rw [h]; simp
      · rw [h]; exact length_pushCap_le maxLogs st.logs en h1
    · rcases step_pendingLogs st e with h | h | ⟨en, h⟩
      · rw [h]; exact h2
      · rw [h]; simp
      · rw [h]; exact length_pushCap_le maxPendingLogs st.pendingLogs en h2

lemma foldl_step_deliveries_ready (es : List Event) :
    ∀ st : CState, (∀ d ∈ st.deliveries, d.readyAtCall = true) →
      ∀ d ∈ (es.foldl step st).deliveries, d.readyAtCall = true := by
  induction es with
  | nil =>
    intro st h
    exact h
  | cons e es ih =>
    intro st h
    rw [List.foldl_cons]
    refine ih (step st e) ?_
    rcases step_deliveries st e with hd | ⟨b, hd⟩
    · rw [hd]
      exact h
    · rw [hd]
      intro d hmem
      rcases List.mem_append.mp hmem with hmem | hmem
      · exact h d hmem
      · rcases List.mem_singleton.mp hmem with rfl
        rfl

lemma foldl_step_resetLatch (es : List Event) :
    ∀ st : CState, st.resetCalls ≤ 1 → (st.logsReset = false → st.resetCalls = 0) →
      (es.foldl step st).resetCalls ≤ 1
        ∧ ((es.foldl step st).logsReset = false → (es.foldl step st).resetCalls = 0) := by
  induction es with
  | nil =>
    intro st h1 h2
    exact ⟨h1, h2⟩
  | cons e es ih =>
    intro st h1 h2
    rw [List.foldl_cons]
    refine ih (step st e) ?_ ?_
    · rcases step_resetLatch st e with ⟨hc, _⟩ | ⟨h0, hc, _⟩
      · rw [hc]; exact h1
      · rw [hc, h2 h0]
    · rcases step_resetLatch st e with ⟨hc, hl⟩ | ⟨h0, hc, hl⟩
      · rw [hc, hl]; exact h2
      · rw [hl]; intro hfalse; cases hfalse

lemma foldl_step_record_logs (rs : List RecordReq) :
    ∀ st : CState,
      ((rs.map Event.recordEv).foldl step st).logs
        = (rs.map entryOfReq).foldl (pushCap maxLogs) st.logs := by
  induction rs with
  | nil =>
    intro st
    rfl
  | cons r rs ih =>
    intro st
    simp only [List.map_cons, List.foldl_cons]
    rw [ih (step st (Event.recordEv r)), step_recordEv_logs]

/-- C1: after every sequence of collector operations the ring buffer
holds at most 1000 entries and the pending accumulator at most 200; and
a sequence of N > 1000 record appends leaves the ring buffer holding
exactly the most recent 1000 stored entries in their original relative
order (eviction removes exactly the single oldest entry per overflow). -/
theorem C1_bounded_ring_fifo :
    (∀ es : List Event,
      (replay es).logs.length ≤ maxLogs
        ∧ (replay es).pendingLogs.length ≤ maxPendingLogs)
    ∧ (∀ rs : List RecordReq, maxLogs < rs.length →
        (replay (rs.map Event.recordEv)).logs
            = (rs.map entryOfReq).drop (rs.length - maxLogs)
          ∧ (replay (rs.map Event.recordEv)).logs.length = maxLogs) := by
  constructor
  · intro es
    exact foldl_step_bounds es initState (by simp [initState]) (by simp [initState])
  · intro rs h
    have hlogs : (replay (rs.map Event.recordEv)).logs
        = (rs.map entryOfReq).foldl (pushCap maxLogs) [] := by
      unfold replay
      rw [foldl_step_record_logs rs initState]
      rfl
    rw [hlogs, foldl_pushCap maxLogs (by norm_num [maxLogs]) (rs.map entryOfReq)]
    refine ⟨by rw [List.length_map], ?_⟩
    rw [List.length_drop, List.length_map]
    omega

/-- Witness for C1 at a concrete 1001-element append sequence. -/
theorem C1_bounded_ring_fifo_witness :
    maxLogs < (List.replicate 1001 sampleReq).length
    ∧ (replay ((List.replicate 1001 sampleReq).map Event.recordEv)).logs
        = ((List.replicate 1001 sampleReq).map entryOfReq).drop
            ((List.replicate 1001 sampleReq).length - maxLogs) :=
  ⟨by rw [List.length_replicate]; norm_num [maxLogs],
   (C1_bounded_ring_fifo.2 (List.replicate 1001 sampleReq)
     (by rw [List.length_replicate]; norm_num [maxLogs])).1⟩

/-- C2: every delivery call in every reachable execution is issued with
the readiness flag true (never while it is false); a flush attempt in a
not-ready state issues no delivery and re-arms the one-shot timer; and
the readiness transition with a non-empty pending queue issues exactly
one delivery carrying that whole accumulated batch. -/
theorem C2_readiness_gated_flush :
    (∀ es : List Event, ∀ d ∈ (replay es).deliveries, d.readyAtCall = true)
    ∧ (∀ st : CState, ∀ ok : Bool, st.tauriReady = false →
        (flushPending st ok).deliveries = st.deliveries
          ∧ (flushPending st ok).flushTimer = true)
    ∧ (∀ st : CState, ∀ rok dok : Bool, st.pendingLogs ≠ [] →
        (handleTauriReady st rok dok).deliveries
            = st.deliveries ++ [{ readyAtCall := true, batch := st.pendingLogs }]
          ∧ (handleTauriReady st rok dok).pendingLogs = []) := by
  refine ⟨?_, ?_, ?_⟩
  · intro es
    exact foldl_step_deliveries_ready es initState (by simp [initState])
  · intro st ok h
    rw [flushPending_not_ready st ok h]
    exact ⟨rfl, rfl⟩
  · intro st rok dok hp
    unfold handleTauriReady
    have h1 : (resetLogsFile { st with tauriReady := true } rok).tauriReady = true := by
      rw [resetLogsFile_tauriReady]
    have h2 : (resetLogsFile { st with tauriReady := true } rok).pendingLogs ≠ [] := by
      rw [resetLogsFile_pendingLogs]
      exact hp
    rw [flushPending_deliver _ dok h1 h2]
    refine ⟨?_, rfl⟩
    dsimp only
    rw [resetLogsFile_deliveries, resetLogsFile_pendingLogs]

/-- Witness for C2 at concrete states: a not-ready flush delivers
nothing and re-arms, and a ready transition on one pending entry
delivers exactly that batch. -/
theorem C2_readiness_gated_flush_witness :
    (initState.tauriReady = false
      ∧ (flushPending initState true).deliveries = initState.deliveries
      ∧ (flushPending initState true).flushTimer = true)
    ∧ (pendingOnlyState.pendingLogs ≠ []
      ∧ (handleTauriReady pendingOnlyState true true).deliveries
          = pendingOnlyState.deliveries
              ++ [{ readyAtCall := true, batch := pendingOnlyState.pendingLogs }]
      ∧ (handleTauriReady pendingOnlyState true true).pendingLogs = []) := by
  have hne : pendingOnlyState.pendingLogs ≠ [] := by
    simp [pendingOnlyState, initState]
  refine ⟨⟨rfl, ?_⟩, hne, ?_⟩
  · exact C2_readiness_gated_flush.2.1 initState true rfl
  · exact C2_readiness_gated_flush.2.2 pendingOnlyState true true hne

/-- C7: the remote-reset call is issued at most once per process
lifetime: across every event sequence the reset-call count never
exceeds one; a state with the reset-done latch set performs nothing;
and the first reset sets the latch (before the call is issued, per the
definition of `resetLogsFile`) while incrementing the call count. -/
theorem C7_reset_at_most_once :
    (∀ es : List Event, (replay es).resetCalls ≤ 1)
    ∧ (∀ st : CState, ∀ ok : Bool, st.logsReset = true → resetLogsFile st ok = st)
    ∧ (∀ st : CState, ∀ ok : Bool, st.logsReset = false →
        (resetLogsFile st ok).logsReset = true
          ∧ (resetLogsFile st ok).resetCalls = st.resetCalls + 1) := by
  refine ⟨?_, ?_, ?_⟩
  · intro es
    exact (foldl_step_resetLatch es initState (by simp [initState]) (fun _ => rfl)).1
  · exact resetLogsFile_done
  · intro st ok h
    rw [resetLogsFile_fresh st ok h]
    exact ⟨rfl, rfl⟩

/-- Witness for C7 at concrete states: a latched state is inert and a
fresh state latches and counts one reset call. -/
theorem C7_reset_at_most_once_witness :
    ({ initState with logsReset := true }.logsReset = true
      ∧ resetLogsFile { initState with logsReset := true } true
          = { initState with logsReset := true })
    ∧ (initState.logsReset = false
      ∧ (resetLogsFile initState true).logsReset = true
      ∧ (resetLogsFile initState true).resetCalls = initState.resetCalls + 1) :=
  ⟨⟨rfl, C7_reset_at_most_once.2.1 { initState with logsReset := true } true rfl⟩,
   rfl, C7_reset_at_most_once.2.2 initState true rfl⟩

/-- C3 counterexample: in a ready state with one pending entry, a
FAILED delivery attempt still empties the pending accumulator (and
logs the failure to the original console), so the accumulator is not
cleared only by successful deliveries as the claim states. -/
theorem C3_cleared_on_failure_counterexample :
    (flushPending readyPendingState false).pendingLogs = []
    ∧ (flushPending readyPendingState false).consoleErrors
        = ["[debug] append logs failed"]
    ∧ (flushPending readyPendingState false).deliveries
        = [{ readyAtCall := true, batch := [sampleEntry] }] := by
  refine ⟨rfl, rfl, rfl⟩

/-- C3 amended: the pending accumulator is cleared exactly by a
delivery attempt (ready and non-empty queue) — the whole batch is
removed atomically before the call and never partially, regardless of
the outcome; on failure the failure is logged to the original console
and the batch is dropped without retry; appends never clear it. -/
theorem C3_batch_dropped_on_any_attempt :
    (∀ st : CState, ∀ ok : Bool, st.tauriReady = true → st.pendingLogs ≠ [] →
        (flushPending st ok).pendingLogs = []
        ∧ (flushPending st ok).deliveries
            = st.deliveries ++ [{ readyAtCall := true, batch := st.pendingLogs }]
        ∧ (ok = false → (flushPending st ok).consoleErrors
            = st.consoleErrors ++ ["[debug] append logs failed"])
        ∧ (ok = true → (flushPending st ok).consoleErrors = st.consoleErrors))
    ∧ (∀ st : CState, ∀ ok : Bool, st.tauriReady = true → st.pendingLogs = [] →
        flushPending st ok = st)
    ∧ (∀ st : CState, ∀ r : RecordReq,
        (step st (Event.recordEv r)).pendingLogs ≠ []) := by
  refine ⟨?_, ?_, ?_⟩
  · intro st ok h hp
    rw [flushPending_deliver st ok h hp]
    refine ⟨rfl, rfl, ?_, ?_⟩
    · intro hok
      subst hok
      rfl
    · intro hok
      subst hok
      rfl
  · exact flushPending_empty
  · intro st r
    have hpe : (step st (Event.recordEv r)).pendingLogs
        = pushCap maxPendingLogs st.pendingLogs (entryOfReq r) := by
      simp [step, record, addLog_eq, entryOfReq]
    rw [hpe]
    exact pushCap_ne_nil _ _ _ (by norm_num [maxPendingLogs])

/-- Witness for C3 amended at a concrete ready state with one pending
entry and a successful delivery. -/
theorem C3_batch_dropped_witness :
    readyPendingState.tauriReady = true
    ∧ readyPendingState.pendingLogs ≠ []
    ∧ (flushPending readyPendingState true).pendingLogs = []
    ∧ (flushPending readyPendingState true).deliveries
        = readyPendingState.deliveries
            ++ [{ readyAtCall := true, batch := readyPendingState.pendingLogs }] := by
  have h1 : readyPendingState.tauriReady = true := rfl
  have h2 : readyPendingState.pendingLogs ≠ [] := by
    simp [readyPendingState, initState]
  have h := C3_batch_dropped_on_any_attempt.1 readyPendingState true h1 h2
  exact ⟨h1, h2, h.1, h.2.1⟩

/-- C4: for every argument list the formatter produces the space-joined
concatenation of the per-value conversions in the spec's priority order
(string passthrough, then error-like as "name: message", then
structural serialization, then generic coercion), and every per-value
conversion returns normally (the try/catch swallows the only possible
exception), so the formatter never throws. -/
theorem C4_formatter_refinement :
    ∀ args : List JSValue,
      formatArgs args = specFormatArgs args
      ∧ formatArgs args = String.intercalate " " (args.map specConvert)
      ∧ ∀ v : JSValue, formatArgE v = Except.ok (formatArg v) := by
  intro args
  have hconv : ∀ v : JSValue, formatArg v = specConvert v := by
    intro v
    cases v <;> rfl
  have h1 : formatArgs args = specFormatArgs args := by
    unfold formatArgs specFormatArgs
    rw [funext hconv]
  exact ⟨h1, h1, fun v => by cases v <;> rfl⟩

/-- C5 counterexample: with one buffered entry, `getRecentLogs 0`
returns the whole buffer (JavaScript `slice(-0)` is `slice(0)`), not
the empty sequence the claim requires for n ≤ 0. -/
theorem C5_getRecent_zero_counterexample :
    getRecentLogs oneLogState 0 = [sampleEntry]
    ∧ ([sampleEntry] : List LogEntry) ≠ [] := by
  exact ⟨rfl, by simp⟩

/-- C5 amended: `getRecentLogs n` returns the last n entries in
insertion order for n > 0 (all entries when n is at least the length);
but for n = 0 it returns all entries and for n < 0 it returns all but
the first |n| entries, because the code passes -n to `slice`. -/
theorem C5_getRecent_amended :
    ∀ (st : CState) (n : Int),
      (0 < n → getRecentLogs st n = st.logs.drop (st.logs.length - n.toNat))
      ∧ ((st.logs.length : Int) ≤ n → getRecentLogs st n = st.logs)
      ∧ (n ≤ 0 → getRecentLogs st n = st.logs.drop (-n).toNat) := by
  intro st n
  unfold getRecentLogs jsSliceFrom
  refine ⟨?_, ?_, ?_⟩
  · intro h
    have hc : (-n : Int) < 0 := by omega
    rw [if_pos hc]
    have ht : ((st.logs.length : Int) + -n).toNat = st.logs.length - n.toNat := by
      omega
    rw [ht]
  · intro h
    by_cases hc : (-n : Int) < 0
    · rw [if_pos hc]
      have ht : ((st.logs.length : Int) + -n).toNat = 0 := by omega
      rw [ht, List.drop_zero]
    · rw [if_neg hc]
      have ht : (-n : Int).toNat = 0 := by omega
      rw [ht, List.drop_zero]
  · intro h
    have hc : ¬ (-n : Int) < 0 := by omega
    rw [if_neg hc]

/-- Witness for C5 amended at a one-entry buffer with n = 1, 5, -2. -/
theorem C5_getRecent_amended_witness :
    ((0 : Int) < 1
      ∧ getRecentLogs oneLogState 1
          = oneLogState.logs.drop (oneLogState.logs.length - (1 : Int).toNat))
    ∧ ((oneLogState.logs.length : Int) ≤ 5
      ∧ getRecentLogs oneLogState 5 = oneLogState.logs)
    ∧ ((-2 : Int) ≤ 0
      ∧ getRecentLogs oneLogState (-2)
          = oneLogState.logs.drop (-(-2 : Int)).toNat) := by
  have hlen : (oneLogState.logs.length : Int) ≤ 5 := by
    norm_num [oneLogState, initState]
  refine ⟨⟨by norm_num, (C5_getRecent_amended oneLogState 1).1 (by norm_num)⟩,
          ⟨hlen, (C5_getRecent_amended oneLogState 5).2.1 hlen⟩,
          ⟨by norm_num, (C5_getRecent_amended oneLogState (-2)).2.2 (by norm_num)⟩⟩

/-- C6 counterexample: a facade-funnelled `record` call with a captured
call-site stack stores an entry whose stack_trace IS populated (with
the normalized stack), contradicting the claim that facade-sourced
entries never carry one. -/
theorem C6_facade_stack_counterexample :
    ((record initState Level.log [JSValue.vstr "hi"] (some sampleStack) 0).logs.map
        (fun e => e.stack_trace)) = [some sampleStack]
    ∧ some sampleStack ≠ (none : Option String) := by
  exact ⟨by decide, by simp⟩

/-- C6 amended: every entry stored through `record` (the funnel of the
facade methods log/info/warn/error/debug) carries the normalized
captured call-site stack; the stack_trace field is absent only when no
stack was captured, not specifically for facade-sourced entries. -/
theorem C6_record_stack_amended :
    ∀ (st : CState) (level : Level) (args : List JSValue)
      (stack : Option String) (ts : Nat),
      ((record st level args stack ts).logs.getLast?).map (fun e => e.stack_trace)
        = some (normalizeStack stack) := by
  intro st level args stack ts
  unfold record
  rw [addLog_eq]
  dsimp only
  rw [pushCap_getLast? maxLogs _ _ (by norm_num [maxLogs])]
  rfl

lemma bumpLevel_foldl (l : List LogEntry) :
    ∀ c0 : LevelCounts,
      l.foldl (fun c e => bumpLevel c e.level) c0
        = { log := c0.log + countLevel l Level.log
            warn := c0.warn + countLevel l Level.warn
            error := c0.error + countLevel l Level.error
            info := c0.info + countLevel l Level.info
            debug := c0.debug + countLevel l Level.debug } := by
  induction l with
  | nil =>
    intro c0
    simp [countLevel]
  | cons e l ih =>
    intro c0
    rw [List.foldl_cons, ih]
    cases he : e.level <;>
      simp [bumpLevel, countLevel, List.filter_cons, he] <;> omega

lemma countLevel_sum (l : List LogEntry) :
    countLevel l Level.log + countLevel l Level.warn + countLevel l Level.error
      + countLevel l Level.info + countLevel l Level.debug = l.length := by
  induction l with
  | nil => rfl
  | cons e l ih =>
    cases he : e.level <;>
      simp only [countLevel, List.filter_cons, he] at ih ⊢ <;>
      simp [countLevel] at ih ⊢ <;> omega

/-- C8: the stats total equals the buffer length, the per-level map
covers all five levels with the exact per-level buffer counts (hence
zero for absent levels, and each count equals the length of the
level-filtered read), and the five counts sum to the total. -/
theorem C8_stats_consistent :
    ∀ st : CState,
      (getStats st).1 = st.logs.length
      ∧ (getStats st).2.log = (getLogsByLevel st Level.log).length
      ∧ (getStats st).2.warn = (getLogsByLevel st Level.warn).length
      ∧ (getStats st).2.error = (getLogsByLevel st Level.error).length
      ∧ (getStats st).2.info = (getLogsByLevel st Level.info).length
      ∧ (getStats st).2.debug = (getLogsByLevel st Level.debug).length
      ∧ (getStats st).2.log + (getStats st).2.warn + (getStats st).2.error
          + (getStats st).2.info + (getStats st).2.debug = (getStats st).1 := by
  intro st
  unfold getStats
  rw [bumpLevel_foldl st.logs]
  refine ⟨rfl, ?_, ?_, ?_, ?_, ?_, ?_⟩ <;> simp only [Nat.zero_add]
  · rfl
  · rfl
  · rfl
  · rfl
  · rfl
  · exact countLevel_sum st.logs

/-- C9: origin extraction returns exactly the first trimmed non-empty
stack line surviving the internal-frame filter (the header counts as
filtered since it starts with "Error"); when every line is internal the
origin is absent and the argument list passes through unmodified. -/
theorem C9_origin_extraction :
    ∀ (stack : String) (args : List JSValue),
      formatOrigin (some stack)
          = (stackLines stack).find? (fun l => !(isInternalFrame l))
      ∧ ((∀ l ∈ stackLines stack, isInternalFrame l = true) →
          formatOrigin (some stack) = none
          ∧ withOriginArgs args (formatOrigin (some stack)) = args)
      ∧ (∀ l, formatOrigin (some stack) = some l →
          isInternalFrame l = false ∧ l ∈ stackLines stack) := by
  intro stack args
  refine ⟨rfl, ?_, ?_⟩
  · intro hall
    have hnone : formatOrigin (some stack) = none := by
      unfold formatOrigin
      rw [List.find?_eq_none]
      intro x hx
      simp [hall x hx]
    exact ⟨hnone, by rw [hnone]; rfl⟩
  · intro l hl
    unfold formatOrigin at hl
    have hp := List.find?_some hl
    have hm := List.mem_of_find?_eq_some hl
    refine ⟨by simpa using hp, hm⟩

/-- Witness for C9 at a stack whose only non-header frame references
the collector module, plus a one-argument list. -/
theorem C9_origin_extraction_witness :
    (∀ l ∈ stackLines internalStack, isInternalFrame l = true)
    ∧ formatOrigin (some internalStack) = none
    ∧ withOriginArgs [JSValue.vstr "a"] (formatOrigin (some internalStack))
        = [JSValue.vstr "a"] := by
  have hall : ∀ l ∈ stackLines internalStack, isInternalFrame l = true := by decide
  have h := (C9_origin_extraction internalStack [JSValue.vstr "a"]).2.1 hall
  exact ⟨hall, h.1, h.2⟩

lemma withOriginArgsRef_deref (σ : ArgStore) (r : Nat) (o : Option String) :
    ∀ r', r' < σ.arrs.length →
      deref (withOriginArgsRef σ r o).1 r' = deref σ r' := by
  intro r' h
  cases o with
  | none => rfl
  | some o =>
    unfold withOriginArgsRef allocArr deref
    dsimp only
    rw [List.getD_append _ _ _ _ h]

lemma withOriginArgsRef_value (σ : ArgStore) (r : Nat) (o : Option String) :
    deref (withOriginArgsRef σ r o).1 (withOriginArgsRef σ r o).2
      = withOriginArgs (deref σ r) o := by
  cases o with
  | none => rfl
  | some o =>
    unfold withOriginArgsRef allocArr deref withOriginArgs
    dsimp only
    rw [List.getD_eq_getElem?_getD, List.getElem?_concat_length]
    rfl

lemma withOriginArgsRef_length (σ : ArgStore) (r : Nat) (o : Option String) :
    σ.arrs.length ≤ (withOriginArgsRef σ r o).1.arrs.length := by
  cases o with
  | none => exact le_rfl
  | some o =>
    unfold withOriginArgsRef allocArr
    simp

/-- C10: recording never mutates the caller-supplied argument array:
every pre-existing array in the store dereferences identically after a
`record` or facade call (enrichment allocates a fresh array), and the
reference-level `record` computes exactly the pure `record` on the
dereferenced caller array. -/
theorem C10_args_not_mutated :
    ∀ (σ : ArgStore) (st : CState) (level : Level) (r : Nat)
      (stack : Option String) (ts : Nat),
      (∀ r', r' < σ.arrs.length →
        deref (recordRef σ st level r stack ts).1 r' = deref σ r')
      ∧ (∀ sf sr : Option String, ∀ r', r' < σ.arrs.length →
          deref (facadeRef σ st level r sf sr ts).1 r' = deref σ r')
      ∧ (recordRef σ st level r stack ts).2 = record st level (deref σ r) stack ts := by
  intro σ st level r stack ts
  refine ⟨?_, ?_, ?_⟩
  · intro r' h
    exact withOriginArgsRef_deref σ r (formatOrigin stack) r' h
  · intro sf sr r' h
    unfold facadeRef recordRef
    dsimp only
    rw [withOriginArgsRef_deref _ r (formatOrigin sr) r'
          (lt_of_lt_of_le h (withOriginArgsRef_length σ r (formatOrigin sf)))]
    exact withOriginArgsRef_deref σ r (formatOrigin sf) r' h
  · unfold recordRef record
    dsimp only
    rw [withOriginArgsRef_value σ r (formatOrigin stack)]

/-- Witness for C10 at a one-array store and reference 0. -/
theorem C10_args_not_mutated_witness :
    (0 < sampleStore.arrs.length)
    ∧ deref (recordRef sampleStore initState Level.log 0 (some sampleStack) 0).1 0
        = deref sampleStore 0
    ∧ deref (facadeRef sampleStore initState Level.log 0 (some sampleStack)
          (some sampleStack) 0).1 0
        = deref sampleStore 0 := by
  have h := C10_args_not_mutated sampleStore initState Level.log 0 (some sampleStack) 0
  have h0 : 0 < sampleStore.arrs.length := by norm_num [sampleStore]
  exact ⟨h0, h.1 0 h0, h.2.1 (some sampleStack) (some sampleStack) 0 h0⟩

end DebugTools
